import Mathlib

/-!
Verification of the transit-feed ingestion and spatial-join pipeline of the
TP-QualiteDesDonnes repository.  The TypeScript sources (src/utils/parseCSV.ts,
src/components/Map.tsx, src/components/StopClusters.tsx and the unnamed
duplicate component variants) are shallowly embedded below: JS strings become
`String`, JS numbers that only ever hold finite values become `ℚ`, JS `Map`
and plain objects become insertion-ordered association lists, possibly-`NaN`
results of `parseInt`/`parseFloat` become `Option` values (`none` = not a
finite number), and `undefined`-able fields become `Option String`.
-/

namespace TPQD

/-- `s.toLowerCase()` of JS, modelled characterwise (ASCII case folding). -/
def jsToLower (s : String) : String := String.mk (s.toList.map Char.toLower)

/-- `s.trim()` of JS: strip leading and trailing whitespace. -/
def jsTrim (s : String) : String :=
  String.mk (((s.toList.dropWhile Char.isWhitespace).reverse.dropWhile Char.isWhitespace).reverse)

/-- Does the first list occur as the initial run of the second? -/
def leadsWith : List Char → List Char → Bool
  | [], _ => true
  | _ :: _, [] => false
  | a :: as, b :: bs => a = b && leadsWith as bs

/-- `hay.includes(needle)` of JS: substring containment. -/
def jsIncludes (hay needle : String) : Bool :=
  (List.range (hay.toList.length + 1)).any (fun i => leadsWith needle.toList (hay.toList.drop i))

/-- `map.get(k)` over an insertion-ordered association list. -/
def mget {α : Type} : List (String × α) → String → Option α
  | [], _ => none
  | p :: rest, k => if p.1 = k then some p.2 else mget rest k

/-- `map.set(k, v)`: overwrite the entry when the key is present, otherwise
append it (JS `Map` keeps insertion order). -/
def mset {α : Type} (m : List (String × α)) (k : String) (v : α) : List (String × α) :=
  match mget m k with
  | some _ => m.map (fun p => if p.1 = k then (k, v) else p)
  | none => m ++ [(k, v)]

/-- `parseInt(s, 10)` of JS, with `none` standing for `NaN`: skip leading
whitespace, read an optional sign, then a non-empty run of decimal digits. -/
def jsParseIntDigits (cs : List Char) : Option Nat :=
  let ds := cs.takeWhile Char.isDigit
  if ds.isEmpty then none
  else some (ds.foldl (fun a c => a * 10 + (c.toNat - 48)) 0)

def jsParseInt (s : String) : Option Int :=
  match s.toList.dropWhile Char.isWhitespace with
  | '-' :: rest => (jsParseIntDigits rest).map (fun n => -(n : Int))
  | '+' :: rest => (jsParseIntDigits rest).map (fun n => (n : Int))
  | rest => (jsParseIntDigits rest).map (fun n => (n : Int))

/-! ## Tabular parser (src/utils/parseCSV.ts)

Pass 1 (`splitLinesAux`) cuts the text into logical lines: a newline ends a
line only outside quotes, a doubled quote inside a quoted region is a literal
quote.  Pass 2 (`splitFieldsAux`) cuts one logical line into fields on commas
with the same quote rule.  The final trailing accumulator is pushed only when
non-empty in pass 1 and unconditionally in pass 2, exactly as in the source. -/

def splitLinesAux : Bool → List Char → List Char → List (List Char)
  | _, cur, [] => if cur = [] then [] else [cur]
  | true, cur, '"' :: '"' :: rest => splitLinesAux true (cur ++ ['"']) rest
  | true, cur, '"' :: rest => splitLinesAux false cur rest
  | false, cur, '"' :: rest => splitLinesAux true cur rest
  | false, cur, '\n' :: rest => cur :: splitLinesAux false [] rest
  | inside, cur, c :: rest => splitLinesAux inside (cur ++ [c]) rest

def splitFieldsAux : Bool → List Char → List Char → List (List Char)
  | _, cur, [] => [cur]
  | true, cur, '"' :: '"' :: rest => splitFieldsAux true (cur ++ ['"']) rest
  | true, cur, '"' :: rest => splitFieldsAux false cur rest
  | false, cur, '"' :: rest => splitFieldsAux true cur rest
  | false, cur, ',' :: rest => cur :: splitFieldsAux false [] rest
  | inside, cur, c :: rest => splitFieldsAux inside (cur ++ [c]) rest

def logicalLines (text : String) : List String :=
  (splitLinesAux false [] text.toList).map String.mk

def lineFields (line : String) : List String :=
  (splitFieldsAux false [] line.toList).map String.mk

/-- `parsedRows[0] || []` of the source: header fields of the first logical
line, or `[]` when the text has no logical line at all. -/
def headerFields (text : String) : List String :=
  match logicalLines text with
  | [] => []
  | l :: _ => lineFields l

/-- The row-object construction loop: for each header index `i`,
`obj[headerColumns[i]] = (recordFields[i] ?? '').trim()`.  The header name is
used verbatim, only the value is trimmed. -/
def buildObj : List String → List String → List (String × String) → List (String × String)
  | [], _, obj => obj
  | h :: hs, fields, obj => buildObj hs (fields.drop 1) (mset obj h (jsTrim (fields.headD "")))

def parseCSV (text : String) : List (List (String × String)) :=
  ((logicalLines text).drop 1).map (fun line => buildObj (headerFields text) (lineFields line) [])

/-! ## Feed row types (src/types/gtfs.ts)

TypeScript optional string fields (`field?: string`) become `Option String`;
fields typed plain `string` become `String`. -/

structure StopRow where
  stop_id : String
  stop_name : String
  stop_lat : String
  stop_lon : String
  location_type : Option String
  parent_station : Option String
  wheelchair_boarding : Option String
deriving DecidableEq

structure StopPoint where
  id : String
  name : String
  lat : ℚ
  lon : ℚ
  location_type : String
  parent_station : String
  wheelchair_boarding : String
deriving DecidableEq

structure ShapeRow where
  shape_id : String
  shape_pt_lat : String
  shape_pt_lon : String
  shape_pt_sequence : Option String
deriving DecidableEq

/-- A shape point as stored by `shapeMap`; `parseFloat`/`parseInt` results are
`Option` values, `none` standing for `NaN`. -/
structure ShapePoint where
  lat : Option ℚ
  lon : Option ℚ
  seq : Option Int
deriving DecidableEq

structure TripRow where
  shape_id : Option String
  route_id : Option String
  wheelchair_accessible : Option String
deriving DecidableEq

structure RouteRow where
  route_id : Option String
  route_short_name : Option String
  route_long_name : Option String
  route_color : Option String
deriving DecidableEq

/-! ## Entity builder (Map.tsx `stopPoints`)

The coordinate parser (`parseFloat` followed by the `Number.isFinite` checks)
is abstracted as a parameter `parseF : String → Option ℚ`, where `parseF s =
some q` means `parseFloat(s)` yields the finite number `q`. -/

def buildStopPoint (parseF : String → Option ℚ) (r : StopRow) : Option StopPoint :=
  match parseF r.stop_lat, parseF r.stop_lon with
  | some lat, some lon =>
      some ⟨r.stop_id, r.stop_name, lat, lon, r.location_type.getD "",
            r.parent_station.getD "", r.wheelchair_boarding.getD ""⟩
  | _, _ => none

def stopPoints (parseF : String → Option ℚ) (rows : List StopRow) : List StopPoint :=
  rows.filterMap (buildStopPoint parseF)

/-! ## Shape grouping (Map.tsx `shapeMap`) -/

/-- `seq = parseInt(shapeRow.shape_pt_sequence || '0', 10)`: `undefined` and
the empty string are falsy, every other string goes through `parseInt`. -/
def seqOf (r : ShapeRow) : Option Int :=
  jsParseInt (match r.shape_pt_sequence with
              | some s => if s = "" then "0" else s
              | none => "0")

def mkShapePoint (parseF : String → Option ℚ) (r : ShapeRow) : ShapePoint :=
  ⟨parseF r.shape_pt_lat, parseF r.shape_pt_lon, seqOf r⟩

/-- `if (!groups.has(id)) groups.set(id, []); groups.get(id)!.push(pt)`. -/
def appendToGroup (g : List (String × List ShapePoint)) (k : String) (pt : ShapePoint) :
    List (String × List ShapePoint) :=
  match mget g k with
  | some _ => g.map (fun kv => if kv.1 = k then (kv.1, kv.2 ++ [pt]) else kv)
  | none => g ++ [(k, [pt])]

/-- The comparator `(a, b) => a.seq - b.seq`, as a strict "comes before" test.
Per the ECMAScript `SortCompare` rule a `NaN` comparator value is treated as
`+0`, so a `none` on either side compares as equal. -/
def seqLt (a b : Option Int) : Bool :=
  match a, b with
  | some x, some y => x < y
  | _, _ => false

/-- Stable insertion placing `x` before the first element not strictly below
it; `stableSortSeq` is the unique stable sort for the comparator above, which
is what `Array.prototype.sort` must produce for a consistent comparator. -/
def insertBefore (x : ShapePoint) : List ShapePoint → List ShapePoint
  | [] => [x]
  | y :: ys => if seqLt y.seq x.seq then y :: insertBefore x ys else x :: y :: ys

def stableSortSeq : List ShapePoint → List ShapePoint
  | [] => []
  | x :: xs => insertBefore x (stableSortSeq xs)

def shapeMap (parseF : String → Option ℚ) (rows : List ShapeRow) :
    List (String × List ShapePoint) :=
  let groups := rows.foldl (fun g r => appendToGroup g r.shape_id (mkShapePoint parseF r)) []
  groups.map (fun kv => (kv.1, stableSortSeq kv.2))

/-! ## Relational joiner (Map.tsx `shapeToRoute`, `routeColor`, `routeShortName`) -/

/-- Truthiness of the pair of optional strings in
`if (shapeId && routeId && !map.has(shapeId))`. -/
def tripKey (t : TripRow) (sid : String) : Bool :=
  match t.shape_id, t.route_id with
  | some s, some r => s ≠ "" && r ≠ "" && s = sid
  | _, _ => false

/-- Loop body of `shapeToRoute`:
`if (shapeId && routeId && !shapeToRouteMap.has(shapeId)) map.set(...)`; the
`set` is an append because the guard ensures the key is absent. -/
def shapeToRouteStep (m : List (String × String)) (t : TripRow) : List (String × String) :=
  match t.shape_id, t.route_id with
  | some sid, some rid =>
      if sid ≠ "" ∧ rid ≠ "" ∧ (mget m sid).isNone then m ++ [(sid, rid)] else m
  | _, _ => m

def shapeToRoute (trips : List TripRow) : List (String × String) :=
  trips.foldl shapeToRouteStep []

/-- `color.startsWith('#')`: for the one-character needle this is exactly
"the first character is '#'". -/
def beginsWithHash (s : String) : Bool :=
  match s.toList with
  | c :: _ => c = '#'
  | [] => false

/-- `let color = r.route_color || ''; if (color && !color.startsWith('#'))
color = '#' + color`. -/
def normalizeColor (c : Option String) : String :=
  let color0 := c.getD ""
  if color0 ≠ "" ∧ beginsWithHash color0 = false then "#" ++ color0 else color0

def routeColorStep (m : List (String × String)) (r : RouteRow) : List (String × String) :=
  match r.route_id with
  | some id => if id ≠ "" then mset m id (normalizeColor r.route_color) else m
  | none => m

def routeColor (routes : List RouteRow) : List (String × String) :=
  routes.foldl routeColorStep []

def routeShortName (routes : List RouteRow) : List (String × String) :=
  routes.foldl (fun m r =>
    match r.route_id with
    | some id =>
        if id ≠ "" then
          let short := r.route_short_name.getD ""
          let long := r.route_long_name.getD ""
          mset m id (if short ≠ "" then short else if long ≠ "" then long else id)
        else m
    | none => m) []

/-! ## Proximity join (Map.tsx `stopToRouteNames` / `stopToRouteIds`)

The two numeric kernels — the equirectangular point-to-segment distance and
the haversine distance, both computed in JS doubles — are abstracted as
parameters `segDist` and `hav` returning exact distances in metres.  The join
logic (minimisation over consecutive segments starting from `Infinity`, the
haversine fallback for single-point shapes, and the inclusive 80 m threshold)
is embedded literally; `Infinity` is `⊤` in `WithTop ℚ`. -/

structure GeoPt where
  lat : ℚ
  lon : ℚ
deriving DecidableEq

def consecutivePairs : List GeoPt → List (GeoPt × GeoPt)
  | a :: b :: rest => (a, b) :: consecutivePairs (b :: rest)
  | _ => []

/-- The segment-minimisation loop of `stopToRouteNames`: `minDistance` starts
at `Infinity` (`⊤`) and is lowered by every strictly smaller segment
distance. -/
def segMin (segDist : GeoPt → GeoPt → GeoPt → ℚ) (stop : GeoPt) (points : List GeoPt) :
    WithTop ℚ :=
  (consecutivePairs points).foldl
    (fun m ab => if ((segDist stop ab.1 ab.2 : ℚ) : WithTop ℚ) < m
                 then ((segDist stop ab.1 ab.2 : ℚ) : WithTop ℚ) else m) ⊤

/-- `minDistance` after the `points.length === 1` haversine fallback. -/
def shapeMinDist (segDist : GeoPt → GeoPt → GeoPt → ℚ) (hav : GeoPt → GeoPt → ℚ)
    (stop : GeoPt) (points : List GeoPt) : WithTop ℚ :=
  match points with
  | [q] => if ((hav stop q : ℚ) : WithTop ℚ) < segMin segDist stop points
           then ((hav stop q : ℚ) : WithTop ℚ) else segMin segDist stop points
  | _ => segMin segDist stop points

/-- The body of the per-stop loop of `stopToRouteNames` (Map.tsx lines
200-216): minimise over consecutive segments, fall back to haversine when the
shape has exactly one point, then compare inclusively with the 80 m
threshold (`minDistance <= thresholdMeters`). -/
def stopNearShape (segDist : GeoPt → GeoPt → GeoPt → ℚ) (hav : GeoPt → GeoPt → ℚ)
    (stop : GeoPt) (points : List GeoPt) : Bool :=
  decide (shapeMinDist segDist hav stop points ≤ ((80 : ℚ) : WithTop ℚ))

/-- `set.add(v)` where the JS `Set` keeps first-insertion order. -/
def setAdd (m : List (String × List String)) (k v : String) : List (String × List String) :=
  match mget m k with
  | some _ => m.map (fun p =>
      if p.1 = k then (p.1, if v ∈ p.2 then p.2 else p.2 ++ [v]) else p)
  | none => m ++ [(k, [v])]

/-- The double loop of `stopToRouteNames`: for each shape entry, resolve its
route id (skipping falsy ones) and display name, then add the `(name, id)`
pair to both per-stop maps for every stop within threshold.  The two returned
maps are the exported `stopToRouteNames` and the piggybacked `__ids` map
(`stopToRouteIds`). -/
def stopToRoutePair (segDist : GeoPt → GeoPt → GeoPt → ℚ) (hav : GeoPt → GeoPt → ℚ)
    (shapeMapL : List (String × List GeoPt))
    (shapeToRouteL routeShortNameL : List (String × String))
    (stops : List StopPoint) :
    List (String × List String) × List (String × List String) :=
  shapeMapL.foldl (fun acc sp =>
    match mget shapeToRouteL sp.1 with
    | none => acc
    | some routeId =>
        if routeId = "" then acc
        else
          let routeName := match mget routeShortNameL routeId with
                           | some n => if n = "" then routeId else n
                           | none => routeId
          stops.foldl (fun acc stop =>
            if stopNearShape segDist hav ⟨stop.lat, stop.lon⟩ sp.2
            then (setAdd acc.1 stop.id routeName, setAdd acc.2 stop.id routeId)
            else acc) acc) ([], [])

/-- The invariant relating the two per-stop maps built by `stopToRoutePair`:
identical key sets, and no key bound to an empty list in either map. -/
def keysAligned (a b : List (String × List String)) : Prop :=
  (∀ s : String, (mget a s).isSome = true ↔ (mget b s).isSome = true)
  ∧ (∀ kv ∈ a, kv.2 ≠ ([] : List String)) ∧ (∀ kv ∈ b, kv.2 ≠ ([] : List String))

/-! ## Route accessibility (Map.tsx `routeWheelchair`) -/

def routeWheelchair (trips : List TripRow) : List (String × Bool) :=
  trips.foldl (fun m t =>
    match t.route_id with
    | some rid =>
        if rid ≠ "" then
          if jsTrim (t.wheelchair_accessible.getD "") = "1" then mset m rid true else m
        else m
    | none => m) []

/-! ## Filter evaluators

`matchesRouteNameFilter` is the route-polyline filter of Map.tsx (lines
335-340).  `matchesStopMeta` / `matchesRouteFilters` are the stop filters of
the StopClusters variant that Map.tsx instantiates (StopClusters.tsx lines
139-172).  `matchesRouteFiltersNamesAlt` is the route-name part of the
duplicate StopClusters variant (src/unnamed/part_001). -/

def matchesRouteNameFilter (selectedRoute routeSearch : String) (name : Option String) : Bool :=
  let normalized := jsToLower (name.getD "")
  if selectedRoute ≠ "" ∧ ¬ name = some selectedRoute then false
  else if routeSearch ≠ "" ∧ ¬ normalized = jsToLower routeSearch then false
  else true

/-- The per-stop route-name test of the wired StopClusters variant, applied to
the stop's associated route-name list. -/
def matchesRouteNameStop (selectedRoute routeSearch : String) (names : List String) : Bool :=
  if selectedRoute ≠ "" ∧ ¬ selectedRoute ∈ names then false
  else if routeSearch ≠ "" ∧ ¬ names.any (fun n => jsToLower n = jsToLower routeSearch) then false
  else true

/-- The route-name test of the duplicate variant (part_001): exact match for
the selection, case-insensitive substring for the search box. -/
def matchesRouteFiltersNamesAlt (selectedRoute routeSearch : String) (names : List String) : Bool :=
  if selectedRoute ≠ "" ∧ ¬ names.any (fun n => n = selectedRoute) then false
  else if routeSearch ≠ "" ∧
          ¬ names.any (fun n => jsIncludes (jsToLower n) (jsToLower routeSearch)) then false
  else true

def matchesStopMeta (stopMetaFilter : String) (s : StopPoint) : Bool :=
  if stopMetaFilter = "" then true
  else
    let query := jsToLower stopMetaFilter
    ((([s.name, s.id, s.parent_station, s.location_type].filter
        (fun f => f ≠ "")).map jsToLower).any (fun f => jsIncludes f query))

def matchesRouteFilters (stopRoutesMapL stopRouteIdsMapL : List (String × List String))
    (routeWheelchairL : List (String × Bool)) (selectedRoute routeSearch : String)
    (wheelchairOnly : Bool) (s : StopPoint) : Bool :=
  let routeNames := (mget stopRoutesMapL s.id).getD []
  let routeIds := (mget stopRouteIdsMapL s.id).getD []
  if matchesRouteNameStop selectedRoute routeSearch routeNames = false then false
  else if wheelchairOnly then
    let stopAccessible := s.wheelchair_boarding = "1"
    let routeAccessible := routeIds.any (fun rid => (mget routeWheelchairL rid).getD false)
    if stopAccessible = false ∧ routeAccessible = false then false else true
  else true

/-- The marker loop keeps a stop iff both guards pass. -/
def stopPasses (stopRoutesMapL stopRouteIdsMapL : List (String × List String))
    (routeWheelchairL : List (String × Bool)) (selectedRoute routeSearch : String)
    (wheelchairOnly : Bool) (stopMetaFilter : String) (s : StopPoint) : Bool :=
  matchesStopMeta stopMetaFilter s &&
    matchesRouteFilters stopRoutesMapL stopRouteIdsMapL routeWheelchairL
      selectedRoute routeSearch wheelchairOnly s

/-- Spec-side restatement of the stop-filter contract, following the spec
sentence word for word: stop passes iff (meta filter empty OR substring-matches
one of the four fields) AND (selection empty OR contained in the name set) AND
(search empty OR one name matches it) AND (not wheelchairOnly OR stop
accessible OR one associated route accessible). -/
def stopPassesSpec (stopRoutesMapL stopRouteIdsMapL : List (String × List String))
    (routeWheelchairL : List (String × Bool)) (selectedRoute routeSearch : String)
    (wheelchairOnly : Bool) (stopMetaFilter : String) (s : StopPoint) : Prop :=
  (stopMetaFilter = "" ∨
     ∃ f ∈ [s.name, s.id, s.parent_station, s.location_type],
       jsIncludes (jsToLower f) (jsToLower stopMetaFilter) = true)
  ∧ (selectedRoute = "" ∨ selectedRoute ∈ (mget stopRoutesMapL s.id).getD [])
  ∧ (routeSearch = "" ∨
       ∃ n ∈ (mget stopRoutesMapL s.id).getD [], jsToLower n = jsToLower routeSearch)
  ∧ (wheelchairOnly = false ∨ s.wheelchair_boarding = "1" ∨
       ∃ rid ∈ (mget stopRouteIdsMapL s.id).getD [],
         (mget routeWheelchairL rid).getD false = true)

/-! ## Geometry-enrichment effect (Map.tsx lines 254-286, 372-375)

The component state relevant to the enrichment race is the selected route and
the `hdPolyline` slot.  Selecting a route resets the slot and launches a fetch
(the launch itself is environmental; a later `resolve` event carries the route
that was selected when its fetch was issued).  The source applies a resolved
geometry unconditionally: `fetchRouteGeometry(points).then(geo => { if (geo)
setHdPolyline(geo) })`. -/

structure EnrichState where
  selectedRoute : String
  hdPolyline : Option (List (ℚ × ℚ))
deriving DecidableEq

inductive EnrichEvent
  | select (route : String)
  | resolve (requestedRoute : String) (geo : Option (List (ℚ × ℚ)))

def codeStep (s : EnrichState) : EnrichEvent → EnrichState
  | .select r => { selectedRoute := r, hdPolyline := none }
  | .resolve _ geo =>
      match geo with
      | some g => { s with hdPolyline := some g }
      | none => s

/-- Modelled from the spec: the staleness guard required by §5 ("associate
each in-flight request with the route name/id active at request time; on
resolution, only apply if it still matches current selection"), which is
absent from the source.  Identical to `codeStep` except that a resolved
geometry is applied only when its requesting route is still selected. -/
def specStep (s : EnrichState) : EnrichEvent → EnrichState
  | .select r => { selectedRoute := r, hdPolyline := none }
  | .resolve req geo =>
      match geo with
      | some g => if req = s.selectedRoute then { s with hdPolyline := some g } else s
      | none => s

def codeRun (s : EnrichState) (evs : List EnrichEvent) : EnrichState := evs.foldl codeStep s

def specRun (s : EnrichState) (evs : List EnrichEvent) : EnrichState := evs.foldl specStep s

/-- `positionsToRender = (isSelected && hdPolyline) ? hdPolyline : coords`
where `isSelected = selectedRoute && routeName === selectedRoute`. -/
def positionsToRender (s : EnrichState) (routeName : String) (coords : List (ℚ × ℚ)) :
    List (ℚ × ℚ) :=
  if s.selectedRoute ≠ "" ∧ routeName = s.selectedRoute then s.hdPolyline.getD coords
  else coords

/-! ## Concrete data used by counterexamples and witnesses -/

def enrichInit : EnrichState := ⟨"", none⟩

def geoA : List (ℚ × ℚ) := [(1, 1)]

def coordsB : List (ℚ × ℚ) := [(2, 2)]

/-- Route "A" is selected (launching a fetch tagged "A"), then route "B" is
selected, then the fetch issued for "A" resolves with a non-empty geometry. -/
def traceC1 : List EnrichEvent :=
  [.select "A", .select "B", .resolve "A" (some geoA)]

def c4row : RouteRow := ⟨some "R1", none, none, none⟩

def c5row : ShapeRow := ⟨"S", "0", "0", some "abc"⟩

def c7stop : StopPoint := ⟨"s2", "Stop Two", 0, 0, "", "", "2"⟩

def c7names : List (String × List String) := [("s2", ["L1"])]

def c7ids : List (String × List String) := [("s2", ["R1"])]

end TPQD

namespace TPQD

/-! ## Association-list lemmas -/

theorem mget_cons {α : Type} (p : String × α) (rest : List (String × α)) (k : String) :
    mget (p :: rest) k = if p.1 = k then some p.2 else mget rest k := rfl

theorem mget_append_single {α : Type} (m : List (String × α)) (k k' : String) (v : α) :
    mget (m ++ [(k, v)]) k' =
      match mget m k' with
      | some w => some w
      | none => if k = k' then some v else none := by
  induction m with
  | nil => simp [mget]
  | cons p rest ih =>
      rw [List.cons_append, mget_cons, mget_cons]
      by_cases hp : p.1 = k' <;> simp [hp, ih]

theorem mget_map_value {α β : Type} (f : α → β) (m : List (String × α)) (k : String) :
    mget (m.map (fun kv => (kv.1, f kv.2))) k = (mget m k).map f := by
  induction m with
  | nil => simp [mget]
  | cons p rest ih => by_cases hp : p.1 = k <;> simp [mget, hp, ih]

theorem mget_update_self {α : Type} (m : List (String × α)) (k : String) (v : α)
    (h : (mget m k).isSome) :
    mget (m.map (fun p => if p.1 = k then (k, v) else p)) k = some v := by
  induction m with
  | nil => simp [mget] at h
  | cons p rest ih =>
      by_cases hp : p.1 = k
      · simp [mget, hp]
      · rw [mget_cons] at h
        simp only [hp, if_false] at h
        simp [mget, hp, ih h]

theorem mget_update_ne {α : Type} (m : List (String × α)) (k k' : String) (v : α)
    (h : k' ≠ k) :
    mget (m.map (fun p => if p.1 = k then (k, v) else p)) k' = mget m k' := by
  induction m with
  | nil => rfl
  | cons p rest ih =>
      by_cases hp : p.1 = k
      · simp [mget, hp, Ne.symm h, ih]
      · simp [mget, hp, ih]

theorem mget_mset_self {α : Type} (m : List (String × α)) (k : String) (v : α) :
    mget (mset m k v) k = some v := by
  unfold mset
  cases hm : mget m k with
  | some w => exact mget_update_self m k v (by simp [hm])
  | none => rw [mget_append_single]; simp [hm]

theorem mget_mset_ne {α : Type} (m : List (String × α)) (k k' : String) (v : α)
    (h : k' ≠ k) : mget (mset m k v) k' = mget m k' := by
  unfold mset
  cases hm : mget m k with
  | some w => exact mget_update_ne m k k' v h
  | none =>
      rw [mget_append_single]
      cases mget m k' <;> simp [Ne.symm h]

theorem mem_mset {α : Type} (m : List (String × α)) (k : String) (v : α) (q : String × α)
    (hq : q ∈ mset m k v) : q ∈ m ∨ q = (k, v) := by
  unfold mset at hq
  cases hm : mget m k with
  | some w =>
      rw [hm] at hq
      simp only [List.mem_map] at hq
      rcases hq with ⟨p, hp, hpe⟩
      by_cases hpk : p.1 = k
      · right; simp only [hpk, if_true] at hpe; exact hpe.symm
      · left; simp only [hpk, if_false] at hpe; exact hpe ▸ hp
  | none =>
      rw [hm] at hq
      rcases List.mem_append.mp hq with h | h
      · exact Or.inl h
      · right; simpa using h

/-! ## Row-object construction lemmas (parseCSV) -/

theorem buildObj_keys : ∀ (headers fields : List String) (obj : List (String × String))
    (kv : String × String), kv ∈ buildObj headers fields obj → kv.1 ∈ headers ∨ kv ∈ obj := by
  intro headers
  induction headers with
  | nil => intro fields obj kv h; exact Or.inr h
  | cons hd hs ih =>
      intro fields obj kv h
      rcases ih (fields.drop 1) (mset obj hd (jsTrim (fields.headD ""))) kv h with h1 | h1
      · exact Or.inl (List.mem_cons_of_mem _ h1)
      · rcases mem_mset _ _ _ _ h1 with h2 | h2
        · exact Or.inr h2
        · exact Or.inl (by simp [h2])

theorem mget_buildObj_not_mem : ∀ (headers fields : List String) (obj : List (String × String))
    (k : String), k ∉ headers → mget (buildObj headers fields obj) k = mget obj k := by
  intro headers
  induction headers with
  | nil => intro fields obj k _; rfl
  | cons hd hs ih =>
      intro fields obj k h
      have h1 : k ∉ hs := fun hh => h (List.mem_cons_of_mem _ hh)
      have h2 : k ≠ hd := fun hh => h (by simp [hh])
      calc mget (buildObj (hd :: hs) fields obj) k
          = mget (mset obj hd (jsTrim (fields.headD ""))) k := ih _ _ k h1
        _ = mget obj k := mget_mset_ne _ _ _ _ h2

theorem getD_zero_headD (l : List String) : l.getD 0 "" = l.headD "" := by
  cases l <;> rfl

theorem getD_succ_drop (l : List String) (i : Nat) : l.getD (i + 1) "" = (l.drop 1).getD i "" := by
  cases l <;> rfl

theorem mget_buildObj : ∀ (headers fields : List String) (obj : List (String × String))
    (i : Nat), headers.Nodup → i < headers.length →
    mget (buildObj headers fields obj) (headers.getD i "")
      = some (jsTrim (fields.getD i "")) := by
  intro headers
  induction headers with
  | nil => intro fields obj i _ hi; simp at hi
  | cons hd hs ih =>
      intro fields obj i hnd hi
      cases i with
      | zero =>
          have hne : hd ∉ hs := (List.nodup_cons.mp hnd).1
          rw [show (hd :: hs).getD 0 "" = hd from rfl, getD_zero_headD]
          calc mget (buildObj (hd :: hs) fields obj) hd
              = mget (mset obj hd (jsTrim (fields.headD ""))) hd :=
                mget_buildObj_not_mem hs _ _ hd hne
            _ = some (jsTrim (fields.headD "")) := mget_mset_self _ _ _
      | succ i =>
          rw [show (hd :: hs).getD (i + 1) "" = hs.getD i "" from rfl, getD_succ_drop]
          exact ih (fields.drop 1) _ i (List.nodup_cons.mp hnd).2 (by simpa using hi)

theorem get?_drop_one {α : Type} (l : List α) (j : Nat) :
    (l.drop 1).get? j = l.get? (j + 1) := by
  cases l <;> rfl

theorem getD_of_get? {α : Type} (l : List α) (n : Nat) (d a : α) (h : l.get? n = some a) :
    l.getD n d = a := by
  induction l generalizing n with
  | nil => simp at h
  | cons x xs ih =>
      cases n with
      | zero => simp at h; simp [h]
      | succ n => exact ih n (by simpa using h)

/-! ## Claim theorems -/

/-- C1: the claim says a stale geometry response is detected and discarded at
resolution time, so that an old fetch completing after a newer selection never
overwrites the newer route's display.  The source applies the resolved
geometry unconditionally: after selecting "A", then "B", and then letting the
fetch issued for "A" resolve, the component stores route "A"'s geometry and
renders it for the selected route "B", whereas the spec-mandated guard
(`specRun`) would have discarded it. -/
theorem c1_stale_fetch_overwrites :
    (codeRun enrichInit traceC1).selectedRoute = "B"
    ∧ (codeRun enrichInit traceC1).hdPolyline = some geoA
    ∧ positionsToRender (codeRun enrichInit traceC1) "B" coordsB = geoA
    ∧ (specRun enrichInit traceC1).hdPolyline = none := by decide

/-- C2 counterexample: the route-search semantics are not identical across the
evaluators.  On name "Tram 1" with search string "tram", the stop evaluator of
the duplicate StopClusters variant (part_001, case-insensitive substring)
accepts while the route-line evaluator of Map.tsx (case-insensitive exact
equality) rejects. -/
theorem c2_counterexample :
    matchesRouteFiltersNamesAlt "" "tram" ["Tram 1"] = true
    ∧ matchesRouteNameFilter "" "tram" (some "Tram 1") = false := by decide

/-- C2 amended: the two evaluators actually wired together — the route-line
filter of Map.tsx and the stop filter of the StopClusters variant Map.tsx
instantiates — do agree for every name, selection and search string:
case-sensitive exact matching for the selected route and case-insensitive
exact matching for the route search. -/
theorem c2_wired_variants_agree (selectedRoute routeSearch name : String) :
    matchesRouteNameStop selectedRoute routeSearch [name]
      = matchesRouteNameFilter selectedRoute routeSearch (some name) := by
  by_cases h1 : selectedRoute = ""
  <;> by_cases h2 : name = selectedRoute
  <;> by_cases h3 : routeSearch = ""
  <;> by_cases h4 : jsToLower name = jsToLower routeSearch
  <;> simp [matchesRouteNameStop, matchesRouteNameFilter, h1, h2, h3, h4,
        show (selectedRoute = name) ↔ (name = selectedRoute) from eq_comm]

/-- C3 counterexample: header field names are used verbatim, not trimmed.  On
the text "a ,b" + newline + "x,y" the produced row is keyed by the untrimmed
header "a " (with only the value trimmed), and a lookup under the trimmed
header "a" fails. -/
theorem c3_counterexample :
    parseCSV "a ,b\nx,y" = [[("a ", "x"), ("b", "y")]]
    ∧ mget ((parseCSV "a ,b\nx,y").headD []) "a" = none := by decide

/-- C4 counterexample: a route row whose `route_color` is absent stores the
empty string in the route→color map, and the empty string does not carry a
leading '#'. -/
theorem c4_counterexample :
    mget (routeColor [c4row]) "R1" = some "" ∧ beginsWithHash "" = false := by decide

/-- C5 counterexample: an unparsable sequence field does not default to 0.
`parseInt("abc", 10)` is `NaN` (modelled as `none`), so the stored shape point
carries a `NaN` sequence, not 0. -/
theorem c5_counterexample :
    mget (shapeMap (fun _ => none) [c5row]) "S" = some [⟨none, none, none⟩]
    ∧ seqOf c5row ≠ some 0 := by decide

/-- C3 amended: the parser returns one row object per non-header logical
line; every key of a row is one of the (untrimmed) header fields, so fields
beyond the header count are dropped; and under distinct headers, looking a
row up at the i-th header field — taken verbatim, not trimmed — yields the
trimmed i-th field of the corresponding logical line, the empty string when
the row is shorter than the header. -/
theorem c3_amended (text : String) :
    (parseCSV text).length = (logicalLines text).length - 1
    ∧ (∀ row ∈ parseCSV text, ∀ kv ∈ row, kv.1 ∈ headerFields text)
    ∧ (∀ j row, (parseCSV text).get? j = some row → (headerFields text).Nodup →
        ∀ i, i < (headerFields text).length →
          mget row ((headerFields text).getD i "")
            = some (jsTrim ((lineFields ((logicalLines text).getD (j + 1) "")).getD i ""))) := by
  refine ⟨by simp [parseCSV], ?_, ?_⟩
  · intro row hrow kv hkv
    rcases List.mem_map.mp hrow with ⟨line, _, rfl⟩
    rcases buildObj_keys _ _ _ kv hkv with h | h
    · exact h
    · simp at h
  · intro j row hrow hnd i hi
    rw [parseCSV, List.get?_map] at hrow
    cases hline : ((logicalLines text).drop 1).get? j with
    | none => rw [hline] at hrow; simp at hrow
    | some line =>
        rw [hline] at hrow
        simp only [Option.map_some', Option.some.injEq] at hrow
        have hgl : (logicalLines text).get? (j + 1) = some line := by
          rw [← get?_drop_one]; exact hline
        rw [getD_of_get? _ _ _ _ hgl, ← hrow]
        exact mget_buildObj _ _ _ i hnd hi

/-- C3 amended, witnessed on a concrete text exercising value trimming and a
short row. -/
theorem c3_amended_witness :
    mget ((parseCSV "h1,h2\na, b \nx").getD 0 []) ((headerFields "h1,h2\na, b \nx").getD 1 "")
      = some (jsTrim ((lineFields ((logicalLines "h1,h2\na, b \nx").getD 1 "")).getD 1 "")) :=
  (c3_amended "h1,h2\na, b \nx").2.2 0 _ (by decide) (by decide) 1 (by decide)

/-! ## Route-colour lemmas (C4) -/

theorem beginsWithHash_append (s : String) : beginsWithHash ("#" ++ s) = true := by
  have h : ("#" ++ s).toList = '#' :: s.toList := by simp [String.toList]
  unfold beginsWithHash
  rw [h]
  simp

theorem normalizeColor_hash (col : Option String) (h : col.getD "" ≠ "") :
    beginsWithHash (normalizeColor col) = true := by
  unfold normalizeColor
  cases hb : beginsWithHash (col.getD "") with
  | false =>
      rw [if_pos ⟨h, hb⟩]
      exact beginsWithHash_append _
  | true =>
      rw [if_neg (fun hh => by simp [hb] at hh)]
      exact hb

theorem normalizeColor_empty (col : Option String) (h : col.getD "" = "") :
    normalizeColor col = "" := by
  unfold normalizeColor
  rw [if_neg (fun hh => hh.1 h)]
  exact h

theorem routeColor_mem_aux (routes : List RouteRow) :
    ∀ (m : List (String × String)) (P : String → String → Prop),
      (∀ id c, mget m id = some c → P id c) →
      ∀ id c, mget (routes.foldl routeColorStep m) id = some c →
        P id c ∨ ∃ r ∈ routes, r.route_id = some id ∧ c = normalizeColor r.route_color := by
  induction routes with
  | nil => intro m P hm id c h; exact Or.inl (hm id c h)
  | cons r rest ih =>
      intro m P hm id c h
      rw [List.foldl_cons] at h
      have hstep : ∀ id' c', mget (routeColorStep m r) id' = some c' →
          (P id' c' ∨ (r.route_id = some id' ∧ c' = normalizeColor r.route_color)) := by
        intro id' c' h'
        unfold routeColorStep at h'
        cases hrid : r.route_id with
        | none => rw [hrid] at h'; exact Or.inl (hm id' c' h')
        | some rid =>
            rw [hrid] at h'
            dsimp only at h'
            by_cases hne : rid ≠ ""
            · rw [if_pos hne] at h'
              by_cases hid : id' = rid
              · subst hid
                rw [mget_mset_self] at h'
                injection h' with h'
                exact Or.inr ⟨rfl, h'.symm⟩
              · rw [mget_mset_ne _ _ _ _ hid] at h'
                exact Or.inl (hm id' c' h')
            · rw [if_neg hne] at h'
              exact Or.inl (hm id' c' h')
      rcases ih (routeColorStep m r)
          (fun id' c' => P id' c' ∨ (r.route_id = some id' ∧ c' = normalizeColor r.route_color))
          hstep id c h with h1 | h1
      · rcases h1 with h1 | h1
        · exact Or.inl h1
        · exact Or.inr ⟨r, List.mem_cons_self r rest, h1.1, h1.2⟩
      · rcases h1 with ⟨r', hr', h2, h3⟩
        exact Or.inr ⟨r', List.mem_cons_of_mem _ hr', h2, h3⟩

/-- C4 amended: every entry of the route→colour map is the normalised colour
of one of the input rows carrying that route id, and for that row the stored
string carries a leading '#' whenever its `route_color` is non-empty (the '#'
is prepended when missing), while an empty or absent `route_color` yields the
empty string. -/
theorem c4_amended (routes : List RouteRow) (id c : String)
    (h : mget (routeColor routes) id = some c) :
    ∃ r ∈ routes, r.route_id = some id
      ∧ c = normalizeColor r.route_color
      ∧ (r.route_color.getD "" ≠ "" → beginsWithHash c = true)
      ∧ (r.route_color.getD "" = "" → c = "") := by
  have h0 : ∀ id c, mget ([] : List (String × String)) id = some c → False := by
    intro id c hh
    simp [mget] at hh
  rcases routeColor_mem_aux routes [] (fun _ _ => False) h0 id c h with h1 | h1
  · exact h1.elim
  · rcases h1 with ⟨r, hr, hid, hc⟩
    refine ⟨r, hr, hid, hc, ?_, ?_⟩
    · intro hne
      rw [hc]
      exact normalizeColor_hash _ hne
    · intro he
      rw [hc]
      exact normalizeColor_empty _ he

theorem c4_amended_witness :
    ∃ r ∈ [(⟨some "R1", none, none, some "FF0000"⟩ : RouteRow)], r.route_id = some "R1"
      ∧ ("#FF0000" : String) = normalizeColor r.route_color
      ∧ (r.route_color.getD "" ≠ "" → beginsWithHash "#FF0000" = true)
      ∧ (r.route_color.getD "" = "" → ("#FF0000" : String) = "") :=
  c4_amended [⟨some "R1", none, none, some "FF0000"⟩] "R1" "#FF0000" (by decide)

/-! ## Shape→route join lemmas (C8) -/

theorem shapeToRoute_aux (trips : List TripRow) (sid : String) :
    ∀ m, mget (trips.foldl shapeToRouteStep m) sid =
      match mget m sid with
      | some r => some r
      | none => (trips.find? (fun t => tripKey t sid)).bind (fun t => t.route_id) := by
  induction trips with
  | nil => intro m; cases hmm : mget m sid <;> simp [hmm]
  | cons t rest ih =>
      intro m
      rw [List.foldl_cons, ih]
      rcases ht : t.shape_id with _ | sid'
      · have hstep : shapeToRouteStep m t = m := by
          unfold shapeToRouteStep; rw [ht]
        have hkey : tripKey t sid = false := by
          unfold tripKey; rw [ht]
        rw [hstep, List.find?_cons_of_neg _ (by simp [hkey])]
      · rcases hr : t.route_id with _ | rid
        · have hstep : shapeToRouteStep m t = m := by
            unfold shapeToRouteStep; rw [ht, hr]
          have hkey : tripKey t sid = false := by
            unfold tripKey; rw [ht, hr]
          rw [hstep, List.find?_cons_of_neg _ (by simp [hkey])]
        · have hstep : shapeToRouteStep m t =
              if sid' ≠ "" ∧ rid ≠ "" ∧ (mget m sid').isNone then m ++ [(sid', rid)]
              else m := by
            unfold shapeToRouteStep; rw [ht, hr]
          by_cases hc : sid' ≠ "" ∧ rid ≠ "" ∧ (mget m sid').isNone
          · rw [hstep, if_pos hc]
            by_cases hsid : sid' = sid
            · subst hsid
              have hnone : mget m sid' = none := by
                cases hmm : mget m sid' with
                | none => rfl
                | some w => rw [hmm] at hc; simp at hc
              have hkey : tripKey t sid' = true := by
                unfold tripKey; rw [ht, hr]; simp [hc.1, hc.2.1]
              rw [mget_append_single, hnone, List.find?_cons_of_pos _ (by simp [hkey])]
              simp [hr]
            · have hkey : tripKey t sid = false := by
                unfold tripKey; rw [ht, hr]; simp [hsid]
              rw [mget_append_single, List.find?_cons_of_neg _ (by simp [hkey])]
              cases mget m sid <;> simp [hsid]
          · rw [hstep, if_neg hc]
            cases hmm : mget m sid with
            | some w => simp [hmm]
            | none =>
                have hkey : tripKey t sid = false := by
                  cases hk : tripKey t sid with
                  | false => rfl
                  | true =>
                      unfold tripKey at hk
                      rw [ht, hr] at hk
                      simp at hk
                      exact absurd ⟨hk.1.1, hk.1.2, by rw [hk.2, hmm]; rfl⟩ hc
                rw [List.find?_cons_of_neg _ (by simp [hkey])]

/-- C8: the shape→route map binds a shape id to the route id of the first
trip, in input order, that carries both a non-empty shape id equal to it and
a non-empty route id; trips lacking either field are skipped and later
associations for an already-bound shape id are ignored.  The map being a
function of the trips list alone, re-running the join on the same input
yields the same mapping. -/
theorem c8_first_association_wins (trips : List TripRow) (sid : String) :
    mget (shapeToRoute trips) sid
      = (trips.find? (fun t => tripKey t sid)).bind (fun t => t.route_id) := by
  simpa using shapeToRoute_aux trips sid []

/-! ## Stable-sort lemmas (C5) -/

theorem insertBefore_perm (x : ShapePoint) (l : List ShapePoint) :
    List.Perm (insertBefore x l) (x :: l) := by
  induction l with
  | nil => exact List.Perm.refl _
  | cons y ys ih =>
      unfold insertBefore
      by_cases h : seqLt y.seq x.seq = true
      · rw [if_pos h]
        exact (ih.cons y).trans (List.Perm.swap x y ys)
      · rw [if_neg h]

theorem stableSortSeq_perm (l : List ShapePoint) : List.Perm (stableSortSeq l) l := by
  induction l with
  | nil => exact List.Perm.refl _
  | cons x xs ih =>
      exact (insertBefore_perm x (stableSortSeq xs)).trans (ih.cons x)

theorem mem_insertBefore (x z : ShapePoint) (l : List ShapePoint)
    (h : z ∈ insertBefore x l) : z = x ∨ z ∈ l := by
  have := (insertBefore_perm x l).mem_iff.mp h
  simpa using this

theorem pairwise_insertBefore (x : ShapePoint) (l : List ShapePoint)
    (hx : x.seq.isSome = true) (hl : ∀ p ∈ l, p.seq.isSome = true)
    (h : l.Pairwise (fun a b => a.seq.getD 0 ≤ b.seq.getD 0)) :
    (insertBefore x l).Pairwise (fun a b => a.seq.getD 0 ≤ b.seq.getD 0) := by
  induction l with
  | nil => simp [insertBefore]
  | cons y ys ih =>
      rw [List.pairwise_cons] at h
      obtain ⟨hy, hys⟩ := h
      have hyS : y.seq.isSome = true := hl y (by simp)
      obtain ⟨xv, hxv⟩ := Option.isSome_iff_exists.mp hx
      obtain ⟨yv, hyv⟩ := Option.isSome_iff_exists.mp hyS
      unfold insertBefore
      by_cases hlt : seqLt y.seq x.seq = true
      · rw [if_pos hlt]
        rw [List.pairwise_cons]
        refine ⟨?_, ih (fun p hp => hl p (by simp [hp])) hys⟩
        intro z hz
        rcases mem_insertBefore x z ys hz with rfl | hz'
        · unfold seqLt at hlt
          rw [hxv, hyv] at hlt
          simp at hlt
          rw [hxv, hyv]
          simpa using le_of_lt hlt
        · exact hy z hz'
      · rw [if_neg hlt]
        have hxy : x.seq.getD 0 ≤ y.seq.getD 0 := by
          unfold seqLt at hlt
          rw [hxv, hyv] at hlt
          simp at hlt
          rw [hxv, hyv]
          simpa using hlt
        rw [List.pairwise_cons]
        refine ⟨?_, List.pairwise_cons.mpr ⟨hy, hys⟩⟩
        intro z hz
        rcases List.mem_cons.mp hz with rfl | hz'
        · exact hxy
        · exact le_trans hxy (hy z hz')

theorem stableSortSeq_pairwise (l : List ShapePoint)
    (hl : ∀ p ∈ l, p.seq.isSome = true) :
    (stableSortSeq l).Pairwise (fun a b => a.seq.getD 0 ≤ b.seq.getD 0) := by
  induction l with
  | nil => simp [stableSortSeq]
  | cons x xs ih =>
      unfold stableSortSeq
      apply pairwise_insertBefore
      · exact hl x (by simp)
      · intro p hp
        exact hl p (List.mem_cons_of_mem _ ((stableSortSeq_perm xs).mem_iff.mp hp))
      · exact ih (fun p hp => hl p (by simp [hp]))

theorem filter_insertBefore (k : Int) (x : ShapePoint) (l : List ShapePoint) :
    (insertBefore x l).filter (fun p => p.seq = some k)
      = (if x.seq = some k then [x] else []) ++ l.filter (fun p => p.seq = some k) := by
  induction l with
  | nil => by_cases hx : x.seq = some k <;> simp [insertBefore, hx]
  | cons y ys ih =>
      unfold insertBefore
      by_cases hlt : seqLt y.seq x.seq = true
      · rw [if_pos hlt]
        by_cases hy : y.seq = some k
        · have hx : ¬ x.seq = some k := by
            intro hxx
            unfold seqLt at hlt
            rw [hy, hxx] at hlt
            simp at hlt
          simp [hy, hx, ih]
        · simp [hy, ih]
      · rw [if_neg hlt]
        by_cases hx : x.seq = some k <;> simp [hx]

theorem filter_stableSortSeq (k : Int) (l : List ShapePoint) :
    (stableSortSeq l).filter (fun p => p.seq = some k)
      = l.filter (fun p => p.seq = some k) := by
  induction l with
  | nil => rfl
  | cons x xs ih =>
      unfold stableSortSeq
      rw [filter_insertBefore, ih]
      by_cases hx : x.seq = some k <;> simp [hx]

/-! ## Shape-grouping lemmas (C5) -/

theorem mget_groupUpdate (g : List (String × List ShapePoint)) (k : String) (pt : ShapePoint)
    (l : List ShapePoint) (hm : mget g k = some l) :
    mget (g.map (fun kv => if kv.1 = k then (kv.1, kv.2 ++ [pt]) else kv)) k
      = some (l ++ [pt]) := by
  induction g with
  | nil => simp [mget] at hm
  | cons p rest ih =>
      by_cases hp : p.1 = k
      · rw [mget_cons, if_pos hp] at hm
        injection hm with hm
        simp [mget, hp, hm]
      · rw [mget_cons, if_neg hp] at hm
        simp [mget, hp, ih hm]

theorem mget_groupUpdate_ne (g : List (String × List ShapePoint)) (k k' : String)
    (pt : ShapePoint) (h : k' ≠ k) :
    mget (g.map (fun kv => if kv.1 = k then (kv.1, kv.2 ++ [pt]) else kv)) k' = mget g k' := by
  induction g with
  | nil => rfl
  | cons p rest ih =>
      by_cases hp : p.1 = k
      · simp [mget, hp, Ne.symm h, ih]
      · by_cases hp' : p.1 = k' <;> simp [mget, hp, hp', h, ih]

theorem mget_appendToGroup_self (g : List (String × List ShapePoint)) (k : String)
    (pt : ShapePoint) :
    mget (appendToGroup g k pt) k = some ((mget g k).getD [] ++ [pt]) := by
  unfold appendToGroup
  cases hm : mget g k with
  | none => rw [mget_append_single, hm]; simp
  | some l => rw [mget_groupUpdate g k pt l hm]; rfl

theorem mget_appendToGroup_ne (g : List (String × List ShapePoint)) (k k' : String)
    (pt : ShapePoint) (h : k' ≠ k) :
    mget (appendToGroup g k pt) k' = mget g k' := by
  unfold appendToGroup
  cases hm : mget g k with
  | none =>
      rw [mget_append_single]
      cases mget g k' <;> simp [Ne.symm h]
  | some l => exact mget_groupUpdate_ne g k k' pt h

theorem shapeGroups_mget (parseF : String → Option ℚ) (sid : String) :
    ∀ (rows : List ShapeRow) (g : List (String × List ShapePoint)),
      mget (rows.foldl (fun g r => appendToGroup g r.shape_id (mkShapePoint parseF r)) g) sid
        = if (mget g sid).isSome ∨ rows.any (fun r => r.shape_id = sid)
          then some ((mget g sid).getD []
                 ++ (rows.filter (fun r => r.shape_id = sid)).map (mkShapePoint parseF))
          else none := by
  intro rows
  induction rows with
  | nil =>
      intro g
      cases hm : mget g sid with
      | none => simp [hm]
      | some l => simp [hm]
  | cons r rest ih =>
      intro g
      rw [List.foldl_cons, ih (appendToGroup g r.shape_id (mkShapePoint parseF r))]
      by_cases hr : r.shape_id = sid
      · rw [show appendToGroup g r.shape_id (mkShapePoint parseF r)
              = appendToGroup g sid (mkShapePoint parseF r) from by rw [hr]]
        rw [mget_appendToGroup_self]
        simp [List.any_cons, List.filter_cons, hr, List.append_assoc]
      · have hne : sid ≠ r.shape_id := fun hh => hr hh.symm
        rw [mget_appendToGroup_ne _ _ _ _ hne]
        simp [List.any_cons, List.filter_cons, hr]

theorem mget_shapeMap (parseF : String → Option ℚ) (rows : List ShapeRow) (sid : String) :
    mget (shapeMap parseF rows) sid
      = if rows.any (fun r => r.shape_id = sid)
        then some (stableSortSeq
               ((rows.filter (fun r => r.shape_id = sid)).map (mkShapePoint parseF)))
        else none := by
  unfold shapeMap
  rw [mget_map_value stableSortSeq, shapeGroups_mget parseF sid rows []]
  by_cases h : rows.any (fun r => r.shape_id = sid) <;> simp [mget, h]

/-- C5 amended: for every shape identity present in the input, the grouped
map's entry has length equal to the number of rows with that identity; the
sequence number defaults to 0 when the sequence field is absent or empty (an
unparsable non-empty field instead yields `NaN`); and whenever all stored
sequence numbers are actual numbers — so that the comparator
`(a, b) => a.seq - b.seq` is consistent and the ECMAScript-mandated sort
result is the unique stable sorted permutation — the entry is sorted
non-decreasingly by them with ties kept in input order: for every sequence
value, filtering the entry for it yields exactly the rows with that value in
input order.  (For a group containing a `NaN` sequence the ECMAScript sort
order is implementation-defined, so nothing is claimed about its order.) -/
theorem c5_amended (parseF : String → Option ℚ) (rows : List ShapeRow) (sid : String)
    (pts : List ShapePoint) (h : mget (shapeMap parseF rows) sid = some pts) :
    pts.length = (rows.filter (fun r => r.shape_id = sid)).length
    ∧ (∀ r : ShapeRow, r.shape_pt_sequence = none ∨ r.shape_pt_sequence = some "" →
        seqOf r = some 0)
    ∧ ((∀ p ∈ pts, p.seq.isSome = true) →
        pts.Pairwise (fun a b => a.seq.getD 0 ≤ b.seq.getD 0))
    ∧ ((∀ p ∈ pts, p.seq.isSome = true) →
        ∀ k : Int, pts.filter (fun p => p.seq = some k)
          = ((rows.filter (fun r => r.shape_id = sid)).map (mkShapePoint parseF)).filter
              (fun p => p.seq = some k)) := by
  rw [mget_shapeMap] at h
  by_cases hc : rows.any (fun r => r.shape_id = sid)
  case neg => rw [if_neg hc] at h; exact absurd h (by simp)
  rw [if_pos hc] at h
  injection h with h
  subst h
  refine ⟨?_, ?_, ?_, ?_⟩
  · rw [(stableSortSeq_perm _).length_eq, List.length_map]
  · intro r hr
    rcases hr with hr | hr
    · unfold seqOf; rw [hr]; decide
    · unfold seqOf; rw [hr]; decide
  · intro hs
    apply stableSortSeq_pairwise
    intro p hp
    exact hs p ((stableSortSeq_perm _).mem_iff.mpr hp)
  · intro _ k
    exact filter_stableSortSeq k _

theorem c5_amended_witness :
    ([(⟨none, none, some 1⟩ : ShapePoint), ⟨none, none, some 2⟩] : List ShapePoint).length
      = (([⟨"S", "0", "0", some "2"⟩, ⟨"S", "0", "0", some "1"⟩] : List ShapeRow).filter
          (fun r => r.shape_id = "S")).length
    ∧ ([(⟨none, none, some 1⟩ : ShapePoint), ⟨none, none, some 2⟩] : List ShapePoint).filter
          (fun p => p.seq = some 1)
        = ((([⟨"S", "0", "0", some "2"⟩, ⟨"S", "0", "0", some "1"⟩] : List ShapeRow).filter
              (fun r => r.shape_id = "S")).map (mkShapePoint (fun _ => none))).filter
            (fun p => p.seq = some 1) :=
  ⟨(c5_amended (fun _ => none) [⟨"S", "0", "0", some "2"⟩, ⟨"S", "0", "0", some "1"⟩] "S"
      [⟨none, none, some 1⟩, ⟨none, none, some 2⟩] (by decide)).1,
   (c5_amended (fun _ => none) [⟨"S", "0", "0", some "2"⟩, ⟨"S", "0", "0", some "1"⟩] "S"
      [⟨none, none, some 1⟩, ⟨none, none, some 2⟩] (by decide)).2.2.2 (by decide) 1⟩

/-! ## Proximity-threshold lemmas (C6) -/

theorem foldMin_le_iff {α : Type} (f : α → ℚ) (c : ℚ) (l : List α) :
    ∀ a : WithTop ℚ,
      (l.foldl (fun m x => if ((f x : ℚ) : WithTop ℚ) < m then ((f x : ℚ) : WithTop ℚ) else m) a
        ≤ ((c : ℚ) : WithTop ℚ))
      ↔ (a ≤ ((c : ℚ) : WithTop ℚ) ∨ ∃ x ∈ l, f x ≤ c) := by
  induction l with
  | nil => intro a; simp
  | cons d rest ih =>
      intro a
      rw [List.foldl_cons, ih]
      constructor
      · rintro (h | ⟨x, hx, hle⟩)
        · by_cases hlt : ((f d : ℚ) : WithTop ℚ) < a
          · rw [if_pos hlt] at h
            exact Or.inr ⟨d, by simp, by exact_mod_cast h⟩
          · rw [if_neg hlt] at h
            exact Or.inl h
        · exact Or.inr ⟨x, by simp [hx], hle⟩
      · rintro (h | ⟨x, hx, hle⟩)
        · left
          by_cases hlt : ((f d : ℚ) : WithTop ℚ) < a
          · rw [if_pos hlt]; exact le_trans (le_of_lt hlt) h
          · rw [if_neg hlt]; exact h
        · rcases List.mem_cons.mp hx with rfl | hx'
          · left
            by_cases hlt : ((f x : ℚ) : WithTop ℚ) < a
            · rw [if_pos hlt]; exact_mod_cast hle
            · rw [if_neg hlt]
              exact le_trans (not_lt.mp hlt) (by exact_mod_cast hle)
          · exact Or.inr ⟨x, hx', hle⟩

/-- C6: for every planar segment-distance function and haversine function, a
stop is associated with a shape of at least two points iff the minimum over
consecutive segments of the point-to-segment distance is at most 80 metres —
the comparison is the inclusive `<=` of the source, so a stop at exactly the
threshold is included and one beyond it is excluded — while a degenerate
single-point shape is tested by direct haversine distance instead. -/
theorem c6_threshold (segDist : GeoPt → GeoPt → GeoPt → ℚ) (hav : GeoPt → GeoPt → ℚ)
    (p : GeoPt) (pts : List GeoPt) :
    (2 ≤ pts.length →
      (stopNearShape segDist hav p pts = true
        ↔ ∃ ab ∈ consecutivePairs pts, segDist p ab.1 ab.2 ≤ 80))
    ∧ (∀ q : GeoPt, pts = [q] →
        (stopNearShape segDist hav p pts = true ↔ hav p q ≤ 80)) := by
  constructor
  · intro hlen
    rcases pts with _ | ⟨a, _ | ⟨b, rest⟩⟩
    · simp at hlen
    · simp at hlen
    · rw [stopNearShape, decide_eq_true_iff]
      have hmin : shapeMinDist segDist hav p (a :: b :: rest)
          = segMin segDist p (a :: b :: rest) := rfl
      rw [hmin]
      refine (foldMin_le_iff (fun ab => segDist p ab.1 ab.2) 80
        (consecutivePairs (a :: b :: rest)) ⊤).trans ?_
      simp
  · intro q hq
    subst hq
    rw [stopNearShape, decide_eq_true_iff]
    have h2 : shapeMinDist segDist hav p [q]
        = if ((hav p q : ℚ) : WithTop ℚ) < ⊤ then ((hav p q : ℚ) : WithTop ℚ) else ⊤ := rfl
    rw [h2, if_pos (WithTop.coe_lt_top _), WithTop.coe_le_coe]

theorem c6_threshold_witness :
    stopNearShape (fun _ _ _ => (80 : ℚ)) (fun _ _ => 0) ⟨0, 0⟩ [⟨0, 0⟩, ⟨1, 1⟩] = true
    ∧ stopNearShape (fun _ _ _ => (81 : ℚ)) (fun _ _ => 0) ⟨0, 0⟩ [⟨0, 0⟩, ⟨1, 1⟩] = false := by
  constructor
  · exact ((c6_threshold (fun _ _ _ => (80 : ℚ)) (fun _ _ => 0) ⟨0, 0⟩ [⟨0, 0⟩, ⟨1, 1⟩]).1
      (by decide)).mpr ⟨(⟨0, 0⟩, ⟨1, 1⟩), by decide, le_refl _⟩
  · have h := (c6_threshold (fun _ _ _ => (81 : ℚ)) (fun _ _ => 0) ⟨0, 0⟩ [⟨0, 0⟩, ⟨1, 1⟩]).1
      (by decide)
    rw [← Bool.not_eq_true]
    intro habs
    obtain ⟨ab, _, hle⟩ := h.mp habs
    norm_num at hle

/-! ## Filter-evaluator lemmas (C7) -/

theorem jsToLower_toList (s : String) : (jsToLower s).toList = s.toList.map Char.toLower := rfl

theorem jsToLower_ne_empty (s : String) (h : s ≠ "") : jsToLower s ≠ "" := by
  intro hh
  apply h
  have h1 : (jsToLower s).toList = [] := by rw [hh]; rfl
  rw [jsToLower_toList] at h1
  have h2 : s.toList = [] := by
    cases hs : s.toList with
    | nil => rfl
    | cons c cs => rw [hs] at h1; simp at h1
  cases s with
  | mk data => simp [String.toList] at h2; simp [h2]

theorem jsIncludes_empty_hay (q : String) (h : q ≠ "") : jsIncludes "" q = false := by
  have hq : q.toList ≠ [] := by
    intro hh
    apply h
    cases q with
    | mk data => simp [String.toList] at hh; simp [hh]
  unfold jsIncludes
  show (List.range (0 + 1)).any (fun i => leadsWith q.toList (List.drop i [])) = false
  cases hqt : q.toList with
  | nil => exact absurd hqt hq
  | cons c cs => simp [List.range_succ, leadsWith]

theorem matchesStopMeta_iff (f : String) (s : StopPoint) :
    matchesStopMeta f s = true
      ↔ (f = "" ∨ ∃ x ∈ [s.name, s.id, s.parent_station, s.location_type],
          jsIncludes (jsToLower x) (jsToLower f) = true) := by
  unfold matchesStopMeta
  by_cases hf : f = ""
  · simp [hf]
  · rw [if_neg hf]
    simp only [hf, false_or]
    rw [List.any_eq_true]
    constructor
    · rintro ⟨y, hy, hinc⟩
      rcases List.mem_map.mp hy with ⟨x, hx, rfl⟩
      rcases List.mem_filter.mp hx with ⟨hx1, _⟩
      exact ⟨x, hx1, hinc⟩
    · rintro ⟨x, hx, hinc⟩
      by_cases hxe : x = ""
      · subst hxe
        rw [show jsToLower "" = "" from rfl,
            jsIncludes_empty_hay _ (jsToLower_ne_empty f hf)] at hinc
        exact absurd hinc (by simp)
      · exact ⟨jsToLower x,
          List.mem_map.mpr ⟨x, List.mem_filter.mpr ⟨hx, by simp [hxe]⟩, rfl⟩, hinc⟩

theorem matchesRouteNameStop_iff (sr q : String) (names : List String) :
    matchesRouteNameStop sr q names = true
      ↔ ((sr = "" ∨ sr ∈ names)
          ∧ (q = "" ∨ ∃ n ∈ names, jsToLower n = jsToLower q)) := by
  unfold matchesRouteNameStop
  by_cases h1 : sr = ""
  <;> by_cases h2 : sr ∈ names
  <;> by_cases h3 : q = ""
  <;> by_cases h4 : ∃ n ∈ names, jsToLower n = jsToLower q
  <;> simp [h1, h2, h3, h4, List.any_eq_true]

theorem matchesRouteFilters_iff (nm idm : List (String × List String))
    (rwm : List (String × Bool)) (sr q : String) (wo : Bool) (s : StopPoint) :
    matchesRouteFilters nm idm rwm sr q wo s = true
      ↔ ((sr = "" ∨ sr ∈ (mget nm s.id).getD [])
          ∧ (q = "" ∨ ∃ n ∈ (mget nm s.id).getD [], jsToLower n = jsToLower q)
          ∧ (wo = false ∨ s.wheelchair_boarding = "1" ∨
              ∃ rid ∈ (mget idm s.id).getD [], (mget rwm rid).getD false = true)) := by
  unfold matchesRouteFilters
  by_cases hns : matchesRouteNameStop sr q ((mget nm s.id).getD []) = true
  · rw [if_neg (by simp [hns])]
    have hiff := (matchesRouteNameStop_iff sr q ((mget nm s.id).getD [])).mp hns
    cases wo with
    | false => simp [hiff]
    | true =>
        simp only [if_true]
        by_cases hsa : s.wheelchair_boarding = "1"
        · simp [hiff, hsa]
        · by_cases hra : ∃ rid ∈ (mget idm s.id).getD [], (mget rwm rid).getD false = true
          · simp [hiff, hsa, hra, List.any_eq_true]
          · simp [hiff, hsa, hra, List.any_eq_true]
  · have hfalse : matchesRouteNameStop sr q ((mget nm s.id).getD []) = false := by
      cases hb : matchesRouteNameStop sr q ((mget nm s.id).getD []) with
      | false => rfl
      | true => exact absurd hb hns
    rw [if_pos hfalse]
    simp only [Bool.false_eq_true, false_iff]
    rintro ⟨hA, hB, _⟩
    exact hns ((matchesRouteNameStop_iff sr q ((mget nm s.id).getD [])).mpr ⟨hA, hB⟩)

/-- C7: a stop passes the marker-loop filter iff it satisfies the spec's
four-clause conjunction: the metadata filter is empty or case-insensitively
substring-matches one of name, id, parent station and location type; the
selected route is empty or contained in the stop's associated route-name set;
the route search is empty or matched (case-insensitively, exactly) by an
associated name; and the accessibility toggle is off or the stop has
wheelchair_boarding "1" or some associated route is accessible.  In
particular the concrete stop with wheelchair_boarding "2" whose only
associated route is not accessible is excluded when the toggle is on. -/
theorem c7_stop_filter :
    (∀ (nm idm : List (String × List String)) (rwm : List (String × Bool))
        (sr q : String) (wo : Bool) (mf : String) (s : StopPoint),
      stopPasses nm idm rwm sr q wo mf s = true ↔ stopPassesSpec nm idm rwm sr q wo mf s)
    ∧ stopPasses c7names c7ids [] "" "" true "" c7stop = false := by
  constructor
  · intro nm idm rwm sr q wo mf s
    unfold stopPasses stopPassesSpec
    rw [Bool.and_eq_true, matchesStopMeta_iff, matchesRouteFilters_iff]
  · decide

/-! ## Stop-point builder lemmas (C9) -/

theorem stopPoints_eq (parseF : String → Option ℚ) (rows : List StopRow) :
    stopPoints parseF rows
      = (rows.filter (fun r => (parseF r.stop_lat).isSome && (parseF r.stop_lon).isSome)).map
          (fun r => ⟨r.stop_id, r.stop_name,
                     (parseF r.stop_lat).getD 0, (parseF r.stop_lon).getD 0,
                     r.location_type.getD "", r.parent_station.getD "",
                     r.wheelchair_boarding.getD ""⟩) := by
  induction rows with
  | nil => rfl
  | cons r rest ih =>
      unfold stopPoints at ih ⊢
      rw [List.filterMap_cons]
      cases h1 : parseF r.stop_lat with
      | none => simp [buildStopPoint, h1, List.filter_cons, ih]
      | some la =>
          cases h2 : parseF r.stop_lon with
          | none => simp [buildStopPoint, h1, h2, List.filter_cons, ih]
          | some lo => simp [buildStopPoint, h1, h2, List.filter_cons, ih]

theorem length_filter_split {α : Type} (p : α → Bool) (l : List α) :
    (l.filter p).length + (l.filter (fun x => !(p x))).length = l.length := by
  induction l with
  | nil => rfl
  | cons x xs ih => cases h : p x <;> simp [List.filter_cons, h] <;> omega

/-- C9: the built StopPoint list is exactly the image of the rows whose two
coordinates parse to finite numbers; its size is the input row count minus
the rows with a non-finite coordinate; and each built point takes its
optional fields from its row with the empty string substituted for an unset
(`undefined`) field. -/
theorem c9_stop_points (parseF : String → Option ℚ) (rows : List StopRow) :
    stopPoints parseF rows
      = (rows.filter (fun r => (parseF r.stop_lat).isSome && (parseF r.stop_lon).isSome)).map
          (fun r => ⟨r.stop_id, r.stop_name,
                     (parseF r.stop_lat).getD 0, (parseF r.stop_lon).getD 0,
                     r.location_type.getD "", r.parent_station.getD "",
                     r.wheelchair_boarding.getD ""⟩)
    ∧ (stopPoints parseF rows).length
        = rows.length - (rows.filter (fun r =>
            !((parseF r.stop_lat).isSome && (parseF r.stop_lon).isSome))).length
    ∧ ∀ p ∈ stopPoints parseF rows, ∃ r ∈ rows, buildStopPoint parseF r = some p
        ∧ (r.location_type = none → p.location_type = "")
        ∧ (r.parent_station = none → p.parent_station = "")
        ∧ (r.wheelchair_boarding = none → p.wheelchair_boarding = "") := by
  refine ⟨stopPoints_eq parseF rows, ?_, ?_⟩
  · have hsplit := length_filter_split
      (fun r => (parseF r.stop_lat).isSome && (parseF r.stop_lon).isSome) rows
    rw [stopPoints_eq parseF rows, List.length_map]
    omega
  · intro p hp
    rcases List.mem_filterMap.mp hp with ⟨r, hr, hb⟩
    have hfields : p.location_type = r.location_type.getD ""
        ∧ p.parent_station = r.parent_station.getD ""
        ∧ p.wheelchair_boarding = r.wheelchair_boarding.getD "" := by
      unfold buildStopPoint at hb
      cases h1 : parseF r.stop_lat with
      | none => rw [h1] at hb; simp at hb
      | some la =>
          cases h2 : parseF r.stop_lon with
          | none => rw [h1, h2] at hb; simp at hb
          | some lo =>
              rw [h1, h2] at hb
              injection hb with hb
              rw [← hb]
              exact ⟨rfl, rfl, rfl⟩
    refine ⟨r, hr, hb, fun hx => ?_, fun hx => ?_, fun hx => ?_⟩
    · rw [hfields.1, hx]; rfl
    · rw [hfields.2.1, hx]; rfl
    · rw [hfields.2.2, hx]; rfl

theorem c9_stop_points_witness :
    ∃ r ∈ [(⟨"s1", "A", "1", "1", none, none, none⟩ : StopRow)],
      buildStopPoint (fun t => if t = "1" then some 1 else none) r
          = some ⟨"s1", "A", 1, 1, "", "", ""⟩
        ∧ (r.location_type = none →
            (⟨"s1", "A", 1, 1, "", "", ""⟩ : StopPoint).location_type = "")
        ∧ (r.parent_station = none →
            (⟨"s1", "A", 1, 1, "", "", ""⟩ : StopPoint).parent_station = "")
        ∧ (r.wheelchair_boarding = none →
            (⟨"s1", "A", 1, 1, "", "", ""⟩ : StopPoint).wheelchair_boarding = "") :=
  (c9_stop_points (fun t => if t = "1" then some 1 else none)
      [⟨"s1", "A", "1", "1", none, none, none⟩]).2.2
    ⟨"s1", "A", 1, 1, "", "", ""⟩ (by decide)

/-! ## Proximity-join pair lemmas (C10) -/

theorem mget_setUpdate (m : List (String × List String)) (k v s : String) :
    mget (m.map (fun p => if p.1 = k then (p.1, if v ∈ p.2 then p.2 else p.2 ++ [v]) else p)) s
      = if s = k then (mget m s).map (fun l => if v ∈ l then l else l ++ [v])
        else mget m s := by
  induction m with
  | nil => by_cases hs : s = k <;> simp [mget, hs]
  | cons p rest ih =>
      by_cases hp : p.1 = k
      · by_cases hps : p.1 = s
        · have hsk : s = k := by rw [← hps, hp]
          simp [mget, hp, hps, hsk]
        · have hks : ¬ k = s := by rw [← hp]; exact hps
          have hsk : ¬ s = k := fun hh => hks hh.symm
          simp [mget, hp, hps, hks, hsk, ih]
      · by_cases hps : p.1 = s
        · have hsk : ¬ s = k := fun hh => hp (by rw [hps, hh])
          simp [mget, hp, hps, hsk]
        · simp [mget, hp, hps, ih]

theorem mget_setAdd_isSome (m : List (String × List String)) (k v s : String) :
    (mget (setAdd m k v) s).isSome = true ↔ ((mget m s).isSome = true ∨ s = k) := by
  unfold setAdd
  cases hm : mget m k with
  | some l =>
      dsimp only
      rw [mget_setUpdate]
      by_cases hs : s = k
      · subst hs; simp [hm]
      · simp [hs]
  | none =>
      dsimp only
      rw [mget_append_single]
      by_cases hs : s = k
      · subst hs
        rw [hm]
        simp
      · cases hms : mget m s <;> simp [hms, Ne.symm hs, hs]

theorem setAdd_values_ne_nil (m : List (String × List String)) (k v : String)
    (hm : ∀ kv ∈ m, kv.2 ≠ ([] : List String)) :
    ∀ kv ∈ setAdd m k v, kv.2 ≠ ([] : List String) := by
  intro kv hkv
  unfold setAdd at hkv
  cases hmk : mget m k with
  | some l =>
      rw [hmk] at hkv
      rcases List.mem_map.mp hkv with ⟨p, hp, rfl⟩
      by_cases hpk : p.1 = k
      · by_cases hv : v ∈ p.2 <;> simp [hpk, hv]
        · exact hm p hp
      · simp [hpk]
        exact hm p hp
  | none =>
      rw [hmk] at hkv
      rcases List.mem_append.mp hkv with h | h
      · exact hm kv h
      · simp at h
        rw [h]
        simp

theorem keysAligned_setAdd (a b : List (String × List String)) (k v w : String)
    (h : keysAligned a b) : keysAligned (setAdd a k v) (setAdd b k w) := by
  refine ⟨?_, setAdd_values_ne_nil a k v h.2.1, setAdd_values_ne_nil b k w h.2.2⟩
  intro s
  rw [mget_setAdd_isSome, mget_setAdd_isSome, h.1 s]

theorem innerFold_aligned (segDist : GeoPt → GeoPt → GeoPt → ℚ) (hav : GeoPt → GeoPt → ℚ)
    (pts : List GeoPt) (routeName routeId : String) (stops : List StopPoint) :
    ∀ acc : List (String × List String) × List (String × List String),
      keysAligned acc.1 acc.2 →
      keysAligned
        (stops.foldl (fun acc stop =>
          if stopNearShape segDist hav ⟨stop.lat, stop.lon⟩ pts
          then (setAdd acc.1 stop.id routeName, setAdd acc.2 stop.id routeId)
          else acc) acc).1
        (stops.foldl (fun acc stop =>
          if stopNearShape segDist hav ⟨stop.lat, stop.lon⟩ pts
          then (setAdd acc.1 stop.id routeName, setAdd acc.2 stop.id routeId)
          else acc) acc).2 := by
  induction stops with
  | nil => intro acc h; exact h
  | cons st rest ih =>
      intro acc h
      rw [List.foldl_cons]
      apply ih
      dsimp only
      by_cases hn : stopNearShape segDist hav ⟨st.lat, st.lon⟩ pts = true
      · rw [if_pos hn]
        exact keysAligned_setAdd acc.1 acc.2 st.id routeName routeId h
      · rw [if_neg hn]
        exact h

theorem mget_mem {α : Type} (m : List (String × α)) (s : String) (v : α)
    (h : mget m s = some v) : (s, v) ∈ m := by
  induction m with
  | nil => simp [mget] at h
  | cons p rest ih =>
      rw [mget_cons] at h
      by_cases hp : p.1 = s
      · rw [if_pos hp] at h
        injection h with h
        have hm : (s, v) = p := by rw [← hp, ← h]
        rw [hm]
        exact List.mem_cons_self p rest
      · rw [if_neg hp] at h
        exact List.mem_cons_of_mem _ (ih h)

theorem outerFold_aligned (segDist : GeoPt → GeoPt → GeoPt → ℚ) (hav : GeoPt → GeoPt → ℚ)
    (shapeToRouteL routeShortNameL : List (String × String)) (stops : List StopPoint) :
    ∀ (shapeMapL : List (String × List GeoPt))
      (start : List (String × List String) × List (String × List String)),
      keysAligned start.1 start.2 →
      keysAligned
        (shapeMapL.foldl (fun acc sp =>
          match mget shapeToRouteL sp.1 with
          | none => acc
          | some routeId =>
              if routeId = "" then acc
              else
                let routeName := match mget routeShortNameL routeId with
                                 | some n => if n = "" then routeId else n
                                 | none => routeId
                stops.foldl (fun acc stop =>
                  if stopNearShape segDist hav ⟨stop.lat, stop.lon⟩ sp.2
                  then (setAdd acc.1 stop.id routeName, setAdd acc.2 stop.id routeId)
                  else acc) acc) start).1
        (shapeMapL.foldl (fun acc sp =>
          match mget shapeToRouteL sp.1 with
          | none => acc
          | some routeId =>
              if routeId = "" then acc
              else
                let routeName := match mget routeShortNameL routeId with
                                 | some n => if n = "" then routeId else n
                                 | none => routeId
                stops.foldl (fun acc stop =>
                  if stopNearShape segDist hav ⟨stop.lat, stop.lon⟩ sp.2
                  then (setAdd acc.1 stop.id routeName, setAdd acc.2 stop.id routeId)
                  else acc) acc) start).2 := by
  intro shapeMapL
  induction shapeMapL with
  | nil => intro start h; exact h
  | cons sp rest ih =>
      intro start h
      rw [List.foldl_cons]
      apply ih
      dsimp only
      cases hrt : mget shapeToRouteL sp.1 with
      | none => exact h
      | some routeId =>
          dsimp only
          by_cases hempty : routeId = ""
          · rw [if_pos hempty]
            exact h
          · rw [if_neg hempty]
            exact innerFold_aligned segDist hav sp.2 _ routeId stops start h

/-- C10: the stop→route-name map and the stop→route-id map produced together
by the proximity join have the same key set — every pair is added to both
maps in the same guarded step — and an entry of either map is never the empty
list. -/
theorem c10_key_sets_agree (segDist : GeoPt → GeoPt → GeoPt → ℚ) (hav : GeoPt → GeoPt → ℚ)
    (shapeMapL : List (String × List GeoPt))
    (shapeToRouteL routeShortNameL : List (String × String)) (stops : List StopPoint) :
    (∀ s : String,
      (mget (stopToRoutePair segDist hav shapeMapL shapeToRouteL routeShortNameL stops).1
        s).isSome = true
      ↔ (mget (stopToRoutePair segDist hav shapeMapL shapeToRouteL routeShortNameL stops).2
        s).isSome = true)
    ∧ (∀ s l, mget (stopToRoutePair segDist hav shapeMapL shapeToRouteL routeShortNameL
        stops).1 s = some l → l ≠ [])
    ∧ (∀ s l, mget (stopToRoutePair segDist hav shapeMapL shapeToRouteL routeShortNameL
        stops).2 s = some l → l ≠ []) := by
  have hmain : keysAligned
      (stopToRoutePair segDist hav shapeMapL shapeToRouteL routeShortNameL stops).1
      (stopToRoutePair segDist hav shapeMapL shapeToRouteL routeShortNameL stops).2 := by
    unfold stopToRoutePair
    exact outerFold_aligned segDist hav shapeToRouteL routeShortNameL stops shapeMapL
      ([], []) ⟨fun s => Iff.rfl, by simp, by simp⟩
  refine ⟨hmain.1, ?_, ?_⟩
  · intro s l hl
    exact hmain.2.1 (s, l) (mget_mem _ s l hl)
  · intro s l hl
    exact hmain.2.2 (s, l) (mget_mem _ s l hl)

theorem c10_key_sets_agree_witness :
    (["Line R"] : List String) ≠ [] :=
  (c10_key_sets_agree (fun _ _ _ => 0) (fun _ _ => 0) [("S", [⟨0, 0⟩, ⟨0, 1⟩])]
      [("S", "R")] [("R", "Line R")] [⟨"s1", "A", 0, 0, "", "", ""⟩]).2.1
    "s1" ["Line R"] (by decide)

end TPQD
